import Mathlib

/-!
Verification of the in-memory stock trading engine (src/src/main.cpp).

The C++ core keeps, per ticker, an `OrderBook` with a fixed array of buy
orders and a fixed array of sell orders, each with an atomic counter of
orders ever inserted on that side.  `addOrder` appends an order (the
counter is incremented first, then checked against the capacity
`MAX_ORDERS_PER_SIDE`; on overflow the order is dropped).  `matchOrder`
scans each side for the best-priced live order and, when the best buy
price is at least the best sell price, decrements both quantities by the
minimum of the two and flips to inactive any order whose quantity reaches
zero, reporting the matched quantity.

This file is a shallow embedding of that code.  The fixed C++ array of
`MAX_ORDERS_PER_SIDE` slots together with its fill counter is modelled as
the list of slots actually written so far plus the raw counter: in the
code an order is stored at index `pos = count` exactly when `pos` is
below capacity, and since the counter never decreases, stores always
happen at the end of the written prefix, so the written prefix is exactly
a list that grows by appending.  Machine integers are modelled as `Int`
(quantities, prices) and `Nat` (counters, 32-bit unsigned hash with an
explicit wrap at 2 ^ 32).  The fill log (the `cout` line in the code) is
modelled as a list of `Fill` records.  The ghost fields `insertedBuy`
and `insertedSell` accumulate the quantities of successfully stored
orders; they influence nothing and exist only to state conservation
properties.

`matchOrder` is split, exactly along the atomic operations of the code,
into a read/decide phase (`matchDecide`: the two scans, the cross check,
the two quantity loads and the `min`) and a write phase (`matchCommit`:
the two `fetch_sub` calls, the two zero checks with their flag stores,
and the fill report).  The sequential `matchOrder` is their composition;
the split also lets a sequentially consistent interleaving of two
concurrent `matchOrder` calls be expressed as Lean terms.
-/

/-- Capacity of the global ticker table in the code. -/
def MAX_TICKERS : Nat := 1024

/-- Capacity of each side of an order book in the code. -/
def MAX_ORDERS_PER_SIDE : Nat := 1024

/-- One resting order: the `Order` struct of the code. -/
structure Order where
  active : Bool
  isBuy : Bool
  quantity : Int
  price : Int
deriving DecidableEq

/-- The zero-initialised order produced by the `Order` constructor in the code. -/
def defaultOrder : Order := ⟨false, false, 0, 0⟩

instance : Inhabited Order := ⟨defaultOrder⟩

/-- One reported match: the quantities and prices printed by `matchOrder`. -/
structure Fill where
  quantity : Int
  buyPrice : Int
  sellPrice : Int
deriving DecidableEq

/-- Per-ticker order book: the written prefixes of the two slot arrays and
the two raw insertion counters. -/
structure OrderBook where
  buyOrders : List Order
  buyCount : Nat
  sellOrders : List Order
  sellCount : Nat
deriving DecidableEq

/-- Book state of one ticker plus the fill log and the ghost totals of
successfully inserted quantity per side. -/
structure EngineState where
  book : OrderBook
  fills : List Fill
  insertedBuy : Int
  insertedSell : Int
deriving DecidableEq

/-- The all-empty initial state (a freshly constructed `OrderBook`). -/
def initState : EngineState := ⟨⟨[], 0, [], 0⟩, [], 0, 0⟩

/-- The hash routing a ticker string to a book slot, from the code:
`hash = hash * 31 + c` on a 32-bit unsigned accumulator, reduced modulo
`MAX_TICKERS`. -/
def hashTicker (ticker : String) : Nat :=
  (ticker.toList.foldl (fun h c => (h * 31 + c.toNat) % 4294967296) 0) % MAX_TICKERS

/-- The order written by `addOrder`: active, with the given side, quantity
and price. -/
def mkOrder (isBuy : Bool) (quantity price : Int) : Order := ⟨true, isBuy, quantity, price⟩

/-- Read slot `i` of a side; out-of-range reads yield the zero-initialised
slot (in-range use is established separately where needed). -/
def getOrder (l : List Order) (i : Nat) : Order := l.getD i defaultOrder

/-- Rewrite slot `i` of a side in place. -/
def updateOrder : List Order → Nat → (Order → Order) → List Order
  | [], _, _ => []
  | o :: rest, 0, f => f o :: rest
  | o :: rest, n + 1, f => o :: updateOrder rest n f

/-- The insertion routine `addOrder` from the code: the side counter is incremented
unconditionally (the `fetch_add`), and the order is stored only when the
obtained position is below capacity; otherwise it is silently dropped.
An unrecognised order type string does nothing. -/
def addOrder (orderType : String) (quantity price : Int) (s : EngineState) : EngineState :=
  if orderType = "Buy" then
    let pos := s.book.buyCount
    if MAX_ORDERS_PER_SIDE ≤ pos then
      { s with book := { s.book with buyCount := pos + 1 } }
    else
      { s with
        book := { s.book with
                  buyCount := pos + 1
                  buyOrders := s.book.buyOrders ++ [mkOrder true quantity price] }
        insertedBuy := s.insertedBuy + quantity }
  else if orderType = "Sell" then
    let pos := s.book.sellCount
    if MAX_ORDERS_PER_SIDE ≤ pos then
      { s with book := { s.book with sellCount := pos + 1 } }
    else
      { s with
        book := { s.book with
                  sellCount := pos + 1
                  sellOrders := s.book.sellOrders ++ [mkOrder false quantity price] }
        insertedSell := s.insertedSell + quantity }
  else s

/-- The buy-side scan loop of `matchOrder`: running best index and best
price, updated when a slot is active, has positive quantity and a price
strictly above the running best (which starts at 0). -/
def buyScanGo : List Order → Nat → Option Nat → Int → Option Nat × Int
  | [], _, bi, bp => (bi, bp)
  | o :: rest, i, bi, bp =>
    if o.active = true ∧ 0 < o.quantity ∧ bp < o.price then
      buyScanGo rest (i + 1) (some i) o.price
    else
      buyScanGo rest (i + 1) bi bp

/-- The sell-side scan loop of `matchOrder`: as the buy scan but keeping
the strictly lowest price, starting from the sentinel 1000000. -/
def sellScanGo : List Order → Nat → Option Nat → Int → Option Nat × Int
  | [], _, bi, bp => (bi, bp)
  | o :: rest, i, bi, bp =>
    if o.active = true ∧ 0 < o.quantity ∧ o.price < bp then
      sellScanGo rest (i + 1) (some i) o.price
    else
      sellScanGo rest (i + 1) bi bp

/-- Best-buy selection of `matchOrder`: index `-1` is modelled as `none`,
the initial best price is 0. -/
def bestBuyScan (l : List Order) : Option Nat × Int := buyScanGo l 0 none 0

/-- Best-sell selection of `matchOrder`: initial best price is the
sentinel 1000000. -/
def bestSellScan (l : List Order) : Option Nat × Int := sellScanGo l 0 none 1000000

/-- The local variables of one `matchOrder` execution after its read
phase. -/
structure MatchLocal where
  bestBuyIndex : Nat
  bestSellIndex : Nat
  bestBuyPrice : Int
  bestSellPrice : Int
  matchedQuantity : Int
deriving DecidableEq

/-- Read/decide phase of `matchOrder`: both scans, the presence and cross
checks, the two quantity loads and the `min`.  Returns `none` exactly
when the code falls through without matching. -/
def matchDecide (ob : OrderBook) : Option MatchLocal :=
  match bestBuyScan ob.buyOrders, bestSellScan ob.sellOrders with
  | (some bi, bbp), (some si, bsp) =>
    if bsp ≤ bbp then
      let buyQty := (getOrder ob.buyOrders bi).quantity
      let sellQty := (getOrder ob.sellOrders si).quantity
      some ⟨bi, si, bbp, bsp, min buyQty sellQty⟩
    else none
  | (some _, _), (none, _) => none
  | (none, _), _ => none

/-- One side of the write phase of `matchOrder`: the `fetch_sub` decrement
of slot `i` by the matched quantity, then the reload-and-check-zero step
that flips `active` off when the remaining quantity is exactly zero. -/
def applyFillSide (l : List Order) (i : Nat) (m : Int) : List Order :=
  let l1 := updateOrder l i (fun o => { o with quantity := o.quantity - m })
  if (getOrder l1 i).quantity = 0 then
    updateOrder l1 i (fun o => { o with active := false })
  else l1

/-- Write phase of `matchOrder`: the two `fetch_sub` decrements, the two
reload-and-check-zero steps that flip `active` off, and the fill report.
The code interleaves the buy-side and sell-side writes (both decrements,
then both checks); since the two sides are disjoint arrays the per-side
grouping used here produces the identical result.  The phase takes the
thread-local decision record, so it can be replayed against a book
mutated in the meantime by another thread. -/
def matchCommit (ob : OrderBook) (loc : MatchLocal) : OrderBook × Fill :=
  (⟨applyFillSide ob.buyOrders loc.bestBuyIndex loc.matchedQuantity, ob.buyCount,
    applyFillSide ob.sellOrders loc.bestSellIndex loc.matchedQuantity, ob.sellCount⟩,
   ⟨loc.matchedQuantity, loc.bestBuyPrice, loc.bestSellPrice⟩)

/-- The matching routine `matchOrder` from the code: the read/decide phase followed, in the
same sequential execution, by the write phase and the fill report. -/
def matchOrder (s : EngineState) : EngineState :=
  match matchDecide s.book with
  | none => s
  | some loc =>
    let r := matchCommit s.book loc
    { s with book := r.1, fills := s.fills ++ [r.2] }

/-- One engine operation on a single ticker. -/
inductive Op where
  | add (orderType : String) (quantity price : Int)
  | doMatch
deriving DecidableEq

/-- Apply one operation. -/
def step (s : EngineState) : Op → EngineState
  | Op.add t q p => addOrder t q p s
  | Op.doMatch => matchOrder s

/-- Run a sequence of operations against one ticker from the initial
state. -/
def run (ops : List Op) : EngineState := ops.foldl step initState

/-- Sum of the remaining quantities stored on one side. -/
def sumQty (l : List Order) : Int := (l.map Order.quantity).sum

/-- Sum of the reported matched quantities. -/
def sumFills (l : List Fill) : Int := (l.map Fill.quantity).sum

/-- A live resting order: active with positive remaining quantity. -/
def liveOrder (o : Order) : Prop := o.active = true ∧ 0 < o.quantity

instance (o : Order) : Decidable (liveOrder o) :=
  inferInstanceAs (Decidable (o.active = true ∧ 0 < o.quantity))

/-- Decidable check that some live buy order prices at or above some live
sell order (a cross remains in the book). -/
def crossExistsb (ob : OrderBook) : Bool :=
  ob.buyOrders.any fun b =>
    b.active && decide (0 < b.quantity) &&
      ob.sellOrders.any fun t =>
        t.active && decide (0 < t.quantity) && decide (t.price ≤ b.price)

/-- Per-side bookkeeping invariant: each ghost total of successfully
inserted quantity equals the remaining quantity stored on that side plus
the total matched quantity reported so far. -/
def conserved (s : EngineState) : Prop :=
  s.insertedBuy = sumQty s.book.buyOrders + sumFills s.fills ∧
  s.insertedSell = sumQty s.book.sellOrders + sumFills s.fills

/-- Operation sequence of the conservation counterexample: one buy and
one sell of quantity 100 at price 50, then one match. -/
def conservationOps : List Op :=
  [Op.add "Buy" 100 50, Op.add "Sell" 100 50, Op.doMatch]

/-- A book whose buy side is at capacity: 1024 stored buy orders and a
buy counter of 1024. -/
def fullBuyState : EngineState :=
  ⟨⟨List.replicate MAX_ORDERS_PER_SIDE (mkOrder true 1 10), MAX_ORDERS_PER_SIDE, [], 0⟩,
   [], (MAX_ORDERS_PER_SIDE : Int), 0⟩

/-- State after submitting a zero-quantity buy and a negative-price sell
to the empty book. -/
def invalidOrdersState : EngineState :=
  addOrder "Sell" 5 (-3) (addOrder "Buy" 0 10 initState)

/-- Operation sequence leaving a cross behind a single match call: two
crossing pairs are resting when `matchOrder` runs once. -/
def drainOps : List Op :=
  [Op.add "Buy" 10 50, Op.add "Buy" 10 50, Op.add "Sell" 10 40,
   Op.add "Sell" 10 40, Op.doMatch]

/-- State holding one live, positively priced sell order at the scan
sentinel price 1000000. -/
def sentinelSellState : EngineState := run [Op.add "Sell" 5 1000000]

/-- Three live buy orders with a price tie at the front: indices 0 and 1
both quote 50, index 2 quotes 40. -/
def tieList : List Order := [mkOrder true 7 50, mkOrder true 7 50, mkOrder true 7 40]

/-- A book whose best buy (40) prices strictly below its best sell (50). -/
def lowCrossState : EngineState := run [Op.add "Buy" 5 40, Op.add "Sell" 5 50]

/-- Book before the partly filled scenario: buy 300 at 60 against
sell 100 at 55. -/
def partialFillPre : EngineState := run [Op.add "Buy" 300 60, Op.add "Sell" 100 55]

/-- Book before the race scenario: buy 100 at 50 against sell 100 at 50. -/
def racePre : EngineState := run [Op.add "Buy" 100 50, Op.add "Sell" 100 50]

/-- The decision record both racing threads compute from `racePre`. -/
def raceLocal : MatchLocal := ⟨0, 0, 50, 50, 100⟩

/-- First thread commits its decision against the untouched book. -/
def raceT1 : OrderBook × Fill := matchCommit racePre.book raceLocal

/-- Second thread commits the same stale decision against the book the
first thread already filled. -/
def raceT2 : OrderBook × Fill := matchCommit raceT1.1 raceLocal

/-- The running best price of the buy scan never decreases. -/
theorem buyScanGo_le : ∀ (l : List Order) (i : Nat) (bi : Option Nat) (bp : Int),
    bp ≤ (buyScanGo l i bi bp).2 := by
  intro l
  induction l with
  | nil => intro i bi bp; exact le_refl bp
  | cons o rest ih =>
    intro i bi bp
    by_cases h : o.active = true ∧ 0 < o.quantity ∧ bp < o.price
    · simp only [buyScanGo, if_pos h]
      exact le_trans (le_of_lt h.2.2) (ih (i + 1) (some i) o.price)
    · simp only [buyScanGo, if_neg h]
      exact ih (i + 1) bi bp

/-- Every live order seen by the buy scan prices at most the final best
price. -/
theorem buyScanGo_cover : ∀ (l : List Order) (i : Nat) (bi : Option Nat) (bp : Int)
    (k : Nat) (hk : k < l.length), liveOrder (l.get ⟨k, hk⟩) →
    (l.get ⟨k, hk⟩).price ≤ (buyScanGo l i bi bp).2 := by
  intro l
  induction l with
  | nil => intro i bi bp k hk; exact absurd hk (Nat.not_lt_zero k)
  | cons o rest ih =>
    intro i bi bp k hk hl
    by_cases h : o.active = true ∧ 0 < o.quantity ∧ bp < o.price
    · simp only [buyScanGo, if_pos h]
      cases k with
      | zero =>
        simpa using buyScanGo_le rest (i + 1) (some i) o.price
      | succ k' =>
        exact ih (i + 1) (some i) o.price k' (Nat.lt_of_succ_lt_succ hk) (by simpa using hl)
    · simp only [buyScanGo, if_neg h]
      cases k with
      | zero =>
        have hlo : liveOrder o := by simpa using hl
        have hle : o.price ≤ bp := by
          by_contra hc
          push_neg at hc
          exact h ⟨hlo.1, hlo.2, hc⟩
        simpa using le_trans hle (buyScanGo_le rest (i + 1) bi bp)
      | succ k' =>
        exact ih (i + 1) bi bp k' (Nat.lt_of_succ_lt_succ hk) (by simpa using hl)

/-- Case analysis of the buy scan: either the accumulator passes through
untouched, or the result points at a live order of the list holding the
final best price, strictly above the starting best, and every earlier
live order prices strictly below it (first-wins tie-break). -/
theorem buyScanGo_cases : ∀ (l : List Order) (i : Nat) (bi : Option Nat) (bp : Int),
    buyScanGo l i bi bp = (bi, bp) ∨
    ∃ k, ∃ hk : k < l.length,
      (buyScanGo l i bi bp).1 = some (i + k) ∧
      liveOrder (l.get ⟨k, hk⟩) ∧
      (l.get ⟨k, hk⟩).price = (buyScanGo l i bi bp).2 ∧
      bp < (buyScanGo l i bi bp).2 ∧
      ∀ m (hm : m < l.length), m < k → liveOrder (l.get ⟨m, hm⟩) →
        (l.get ⟨m, hm⟩).price < (buyScanGo l i bi bp).2 := by
  intro l
  induction l with
  | nil => intro i bi bp; exact Or.inl rfl
  | cons o rest ih =>
    intro i bi bp
    by_cases h : o.active = true ∧ 0 < o.quantity ∧ bp < o.price
    · simp only [buyScanGo, if_pos h]
      rcases ih (i + 1) (some i) o.price with heq | ⟨k, hk, h1, h2, h3, h4, h5⟩
      · refine Or.inr ⟨0, Nat.succ_pos _, ?_, ?_, ?_, ?_, ?_⟩
        · rw [heq]; simp
        · simpa using And.intro h.1 h.2.1
        · rw [heq]; simp
        · rw [heq]; exact h.2.2
        · intro m hm hm0
          exact absurd hm0 (Nat.not_lt_zero m)
      · refine Or.inr ⟨k + 1, Nat.succ_lt_succ hk, ?_, ?_, ?_, ?_, ?_⟩
        · rw [h1]; congr 1; omega
        · simpa using h2
        · simpa using h3
        · exact lt_trans h.2.2 h4
        · intro m hm hmk hlm
          cases m with
          | zero => simpa using h4
          | succ m' =>
            exact h5 m' (Nat.lt_of_succ_lt_succ hm) (Nat.lt_of_succ_lt_succ hmk)
              (by simpa using hlm)
    · simp only [buyScanGo, if_neg h]
      rcases ih (i + 1) bi bp with heq | ⟨k, hk, h1, h2, h3, h4, h5⟩
      · exact Or.inl heq
      · refine Or.inr ⟨k + 1, Nat.succ_lt_succ hk, ?_, ?_, ?_, ?_, ?_⟩
        · rw [h1]; congr 1; omega
        · simpa using h2
        · simpa using h3
        · exact h4
        · intro m hm hmk hlm
          cases m with
          | zero =>
            have hlo : liveOrder o := by simpa using hlm
            have hle : o.price ≤ bp := by
              by_contra hc
              push_neg at hc
              exact h ⟨hlo.1, hlo.2, hc⟩
            simpa using lt_of_le_of_lt hle h4
          | succ m' =>
            exact h5 m' (Nat.lt_of_succ_lt_succ hm) (Nat.lt_of_succ_lt_succ hmk)
              (by simpa using hlm)

/-- The running best price of the sell scan never increases. -/
theorem sellScanGo_ge : ∀ (l : List Order) (i : Nat) (bi : Option Nat) (bp : Int),
    (sellScanGo l i bi bp).2 ≤ bp := by
  intro l
  induction l with
  | nil => intro i bi bp; exact le_refl bp
  | cons o rest ih =>
    intro i bi bp
    by_cases h : o.active = true ∧ 0 < o.quantity ∧ o.price < bp
    · simp only [sellScanGo, if_pos h]
      exact le_trans (ih (i + 1) (some i) o.price) (le_of_lt h.2.2)
    · simp only [sellScanGo, if_neg h]
      exact ih (i + 1) bi bp

/-- Every live order seen by the sell scan prices at least the final best
price. -/
theorem sellScanGo_cover : ∀ (l : List Order) (i : Nat) (bi : Option Nat) (bp : Int)
    (k : Nat) (hk : k < l.length), liveOrder (l.get ⟨k, hk⟩) →
    (sellScanGo l i bi bp).2 ≤ (l.get ⟨k, hk⟩).price := by
  intro l
  induction l with
  | nil => intro i bi bp k hk; exact absurd hk (Nat.not_lt_zero k)
  | cons o rest ih =>
    intro i bi bp k hk hl
    by_cases h : o.active = true ∧ 0 < o.quantity ∧ o.price < bp
    · simp only [sellScanGo, if_pos h]
      cases k with
      | zero =>
        simpa using sellScanGo_ge rest (i + 1) (some i) o.price
      | succ k' =>
        exact ih (i + 1) (some i) o.price k' (Nat.lt_of_succ_lt_succ hk) (by simpa using hl)
    · simp only [sellScanGo, if_neg h]
      cases k with
      | zero =>
        have hlo : liveOrder o := by simpa using hl
        have hle : bp ≤ o.price := by
          by_contra hc
          push_neg at hc
          exact h ⟨hlo.1, hlo.2, hc⟩
        simpa using le_trans (sellScanGo_ge rest (i + 1) bi bp) hle
      | succ k' =>
        exact ih (i + 1) bi bp k' (Nat.lt_of_succ_lt_succ hk) (by simpa using hl)

/-- Case analysis of the sell scan, mirror of `buyScanGo_cases`. -/
theorem sellScanGo_cases : ∀ (l : List Order) (i : Nat) (bi : Option Nat) (bp : Int),
    sellScanGo l i bi bp = (bi, bp) ∨
    ∃ k, ∃ hk : k < l.length,
      (sellScanGo l i bi bp).1 = some (i + k) ∧
      liveOrder (l.get ⟨k, hk⟩) ∧
      (l.get ⟨k, hk⟩).price = (sellScanGo l i bi bp).2 ∧
      (sellScanGo l i bi bp).2 < bp ∧
      ∀ m (hm : m < l.length), m < k → liveOrder (l.get ⟨m, hm⟩) →
        (sellScanGo l i bi bp).2 < (l.get ⟨m, hm⟩).price := by
  intro l
  induction l with
  | nil => intro i bi bp; exact Or.inl rfl
  | cons o rest ih =>
    intro i bi bp
    by_cases h : o.active = true ∧ 0 < o.quantity ∧ o.price < bp
    · simp only [sellScanGo, if_pos h]
      rcases ih (i + 1) (some i) o.price with heq | ⟨k, hk, h1, h2, h3, h4, h5⟩
      · refine Or.inr ⟨0, Nat.succ_pos _, ?_, ?_, ?_, ?_, ?_⟩
        · rw [heq]; simp
        · simpa using And.intro h.1 h.2.1
        · rw [heq]; simp
        · rw [heq]; exact h.2.2
        · intro m hm hm0
          exact absurd hm0 (Nat.not_lt_zero m)
      · refine Or.inr ⟨k + 1, Nat.succ_lt_succ hk, ?_, ?_, ?_, ?_, ?_⟩
        · rw [h1]; congr 1; omega
        · simpa using h2
        · simpa using h3
        · exact lt_trans h4 h.2.2
        · intro m hm hmk hlm
          cases m with
          | zero => simpa using h4
          | succ m' =>
            exact h5 m' (Nat.lt_of_succ_lt_succ hm) (Nat.lt_of_succ_lt_succ hmk)
              (by simpa using hlm)
    · simp only [sellScanGo, if_neg h]
      rcases ih (i + 1) bi bp with heq | ⟨k, hk, h1, h2, h3, h4, h5⟩
      · exact Or.inl heq
      · refine Or.inr ⟨k + 1, Nat.succ_lt_succ hk, ?_, ?_, ?_, ?_, ?_⟩
        · rw [h1]; congr 1; omega
        · simpa using h2
        · simpa using h3
        · exact h4
        · intro m hm hmk hlm
          cases m with
          | zero =>
            have hlo : liveOrder o := by simpa using hlm
            have hle : bp ≤ o.price := by
              by_contra hc
              push_neg at hc
              exact h ⟨hlo.1, hlo.2, hc⟩
            simpa using lt_of_lt_of_le h4 hle
          | succ m' =>
            exact h5 m' (Nat.lt_of_succ_lt_succ hm) (Nat.lt_of_succ_lt_succ hmk)
              (by simpa using hlm)

/-- When the best-buy selection returns an index, that index points at a
live order of positive price equal to the reported best price, maximal
among live orders, and every earlier live order prices strictly below it. -/
theorem bestBuyScan_some {l : List Order} {j : Nat} {p : Int}
    (h : bestBuyScan l = (some j, p)) :
    ∃ hj : j < l.length,
      liveOrder (l.get ⟨j, hj⟩) ∧ (l.get ⟨j, hj⟩).price = p ∧ 0 < p ∧
      (∀ (k : Nat) (hk : k < l.length), liveOrder (l.get ⟨k, hk⟩) →
        (l.get ⟨k, hk⟩).price ≤ p) ∧
      (∀ (k : Nat) (hk : k < l.length), k < j → liveOrder (l.get ⟨k, hk⟩) →
        (l.get ⟨k, hk⟩).price < p) := by
  have hs : buyScanGo l 0 none 0 = (some j, p) := h
  rcases buyScanGo_cases l 0 none 0 with heq | ⟨k, hk, h1, h2, h3, h4, h5⟩
  · rw [heq] at hs
    simp at hs
  · rw [hs] at h1 h3 h4 h5
    have hjk : j = k := by simpa using h1
    subst hjk
    refine ⟨hk, h2, h3, h4, ?_, ?_⟩
    · intro k' hk' hl
      have := buyScanGo_cover l 0 none 0 k' hk' hl
      rwa [hs] at this
    · intro k' hk' hlt hl
      exact h5 k' hk' hlt hl

/-- When the best-buy selection returns no index, every live buy order has
non-positive price. -/
theorem bestBuyScan_none {l : List Order} (h : (bestBuyScan l).1 = none) :
    ∀ (k : Nat) (hk : k < l.length), liveOrder (l.get ⟨k, hk⟩) →
      (l.get ⟨k, hk⟩).price ≤ 0 := by
  intro k hk hl
  rcases buyScanGo_cases l 0 none 0 with heq | ⟨k', hk', h1, _, _, _, _⟩
  · have := buyScanGo_cover l 0 none 0 k hk hl
    rw [heq] at this
    exact this
  · rw [show (bestBuyScan l).1 = (buyScanGo l 0 none 0).1 from rfl, h1] at h
    cases h

/-- When the best-sell selection returns an index, that index points at a
live order priced below the sentinel and equal to the reported best,
minimal among live orders, every earlier live order strictly above it. -/
theorem bestSellScan_some {l : List Order} {j : Nat} {p : Int}
    (h : bestSellScan l = (some j, p)) :
    ∃ hj : j < l.length,
      liveOrder (l.get ⟨j, hj⟩) ∧ (l.get ⟨j, hj⟩).price = p ∧ p < 1000000 ∧
      (∀ (k : Nat) (hk : k < l.length), liveOrder (l.get ⟨k, hk⟩) →
        p ≤ (l.get ⟨k, hk⟩).price) ∧
      (∀ (k : Nat) (hk : k < l.length), k < j → liveOrder (l.get ⟨k, hk⟩) →
        p < (l.get ⟨k, hk⟩).price) := by
  have hs : sellScanGo l 0 none 1000000 = (some j, p) := h
  rcases sellScanGo_cases l 0 none 1000000 with heq | ⟨k, hk, h1, h2, h3, h4, h5⟩
  · rw [heq] at hs
    simp at hs
  · rw [hs] at h1 h3 h4 h5
    have hjk : j = k := by simpa using h1
    subst hjk
    refine ⟨hk, h2, h3, h4, ?_, ?_⟩
    · intro k' hk' hl
      have := sellScanGo_cover l 0 none 1000000 k' hk' hl
      rwa [hs] at this
    · intro k' hk' hlt hl
      exact h5 k' hk' hlt hl

/-- When the best-sell selection returns no index, every live sell order
prices at or above the sentinel 1000000. -/
theorem bestSellScan_none {l : List Order} (h : (bestSellScan l).1 = none) :
    ∀ (k : Nat) (hk : k < l.length), liveOrder (l.get ⟨k, hk⟩) →
      1000000 ≤ (l.get ⟨k, hk⟩).price := by
  intro k hk hl
  rcases sellScanGo_cases l 0 none 1000000 with heq | ⟨k', hk', h1, _, _, _, _⟩
  · have := sellScanGo_cover l 0 none 1000000 k hk hl
    rw [heq] at this
    exact this
  · rw [show (bestSellScan l).1 = (sellScanGo l 0 none 1000000).1 from rfl, h1] at h
    cases h

/-- Inversion of the read phase: a successful decision records exactly the
two scan results, a non-negative spread, and the minimum of the two loaded
quantities. -/
theorem matchDecide_some_inv {ob : OrderBook} {loc : MatchLocal}
    (h : matchDecide ob = some loc) :
    bestBuyScan ob.buyOrders = (some loc.bestBuyIndex, loc.bestBuyPrice) ∧
    bestSellScan ob.sellOrders = (some loc.bestSellIndex, loc.bestSellPrice) ∧
    loc.bestSellPrice ≤ loc.bestBuyPrice ∧
    loc.matchedQuantity = min (getOrder ob.buyOrders loc.bestBuyIndex).quantity
      (getOrder ob.sellOrders loc.bestSellIndex).quantity := by
  unfold matchDecide at h
  rcases hb : bestBuyScan ob.buyOrders with ⟨obi, bbp⟩
  rcases hs : bestSellScan ob.sellOrders with ⟨osi, bsp⟩
  rw [hb, hs] at h
  rcases obi with _ | bi
  · simp at h
  · rcases osi with _ | si
    · simp at h
    · dsimp only at h
      by_cases hc : bsp ≤ bbp
      · rw [if_pos hc] at h
        injection h with h
        subst h
        exact ⟨rfl, rfl, hc, rfl⟩
      · rw [if_neg hc] at h
        cases h

/-- The read phase declines when the buy scan finds nothing. -/
theorem matchDecide_none_of_buy {ob : OrderBook}
    (h : (bestBuyScan ob.buyOrders).1 = none) : matchDecide ob = none := by
  unfold matchDecide
  rcases hb : bestBuyScan ob.buyOrders with ⟨obi, bbp⟩
  rw [hb] at h
  simp only at h
  subst h
  rcases hs : bestSellScan ob.sellOrders with ⟨osi, bsp⟩
  rfl

/-- The read phase declines when the sell scan finds nothing. -/
theorem matchDecide_none_of_sell {ob : OrderBook}
    (h : (bestSellScan ob.sellOrders).1 = none) : matchDecide ob = none := by
  unfold matchDecide
  rcases hb : bestBuyScan ob.buyOrders with ⟨obi, bbp⟩
  rcases hs : bestSellScan ob.sellOrders with ⟨osi, bsp⟩
  rw [hs] at h
  simp only at h
  subst h
  rcases obi with _ | bi <;> rfl

/-- The read phase declines when the best buy prices strictly below the
best sell. -/
theorem matchDecide_none_of_spread {ob : OrderBook} {bi si : Nat} {bbp bsp : Int}
    (hb : bestBuyScan ob.buyOrders = (some bi, bbp))
    (hs : bestSellScan ob.sellOrders = (some si, bsp))
    (h : bbp < bsp) : matchDecide ob = none := by
  unfold matchDecide
  rw [hb, hs]
  dsimp only
  rw [if_neg (not_le.mpr h)]

/-- The routine `matchOrder` is the identity when the read phase declines. -/
theorem matchOrder_of_none {s : EngineState} (h : matchDecide s.book = none) :
    matchOrder s = s := by
  unfold matchOrder
  rw [h]

/-- On a successful decision `matchOrder` commits that decision and
appends exactly one fill. -/
theorem matchOrder_of_some {s : EngineState} {loc : MatchLocal}
    (h : matchDecide s.book = some loc) :
    matchOrder s = { s with book := (matchCommit s.book loc).1,
                            fills := s.fills ++ [(matchCommit s.book loc).2] } := by
  unfold matchOrder
  rw [h]

/-- Updating a slot leaves the length unchanged. -/
theorem length_updateOrder : ∀ (l : List Order) (i : Nat) (f : Order → Order),
    (updateOrder l i f).length = l.length := by
  intro l
  induction l with
  | nil => intro i f; rfl
  | cons o rest ih =>
    intro i f
    cases i with
    | zero => rfl
    | succ n => simpa [updateOrder] using ih n f

/-- Reading the slot just updated applies the update to the old value. -/
theorem getOrder_updateOrder_self : ∀ (l : List Order) (i : Nat) (f : Order → Order),
    i < l.length → getOrder (updateOrder l i f) i = f (getOrder l i) := by
  intro l
  induction l with
  | nil => intro i f h; exact absurd h (Nat.not_lt_zero i)
  | cons o rest ih =>
    intro i f h
    cases i with
    | zero => rfl
    | succ n => simpa [updateOrder, getOrder] using ih n f (Nat.lt_of_succ_lt_succ h)

/-- Reading any other slot is unaffected by an update. -/
theorem getOrder_updateOrder_other : ∀ (l : List Order) (i j : Nat) (f : Order → Order),
    j ≠ i → getOrder (updateOrder l i f) j = getOrder l j := by
  intro l
  induction l with
  | nil => intro i j f _; cases i <;> rfl
  | cons o rest ih =>
    intro i j f hne
    cases i with
    | zero =>
      cases j with
      | zero => exact absurd rfl hne
      | succ m => rfl
    | succ n =>
      cases j with
      | zero => rfl
      | succ m =>
        simpa [updateOrder, getOrder] using ih n m f (fun hc => hne (by rw [hc]))

/-- Sum of quantities over a cons cell. -/
theorem sumQty_cons (o : Order) (l : List Order) :
    sumQty (o :: l) = o.quantity + sumQty l := by
  simp [sumQty]

/-- Sum of quantities over an appended singleton. -/
theorem sumQty_append (l : List Order) (o : Order) :
    sumQty (l ++ [o]) = sumQty l + o.quantity := by
  simp [sumQty]

/-- Sum of fill quantities over an appended singleton. -/
theorem sumFills_append (l : List Fill) (f : Fill) :
    sumFills (l ++ [f]) = sumFills l + f.quantity := by
  simp [sumFills]

/-- Updating one slot changes the quantity sum by the change at that
slot. -/
theorem sumQty_updateOrder : ∀ (l : List Order) (i : Nat) (f : Order → Order),
    i < l.length →
    sumQty (updateOrder l i f)
      = sumQty l - (getOrder l i).quantity + (f (getOrder l i)).quantity := by
  intro l
  induction l with
  | nil => intro i f h; exact absurd h (Nat.not_lt_zero i)
  | cons o rest ih =>
    intro i f h
    cases i with
    | zero =>
      show sumQty (f o :: rest) = sumQty (o :: rest) - (getOrder (o :: rest) 0).quantity
        + (f (getOrder (o :: rest) 0)).quantity
      rw [sumQty_cons, sumQty_cons]
      show (f o).quantity + sumQty rest
        = o.quantity + sumQty rest - o.quantity + (f o).quantity
      ring
    | succ n =>
      show sumQty (o :: updateOrder rest n f) = _
      rw [sumQty_cons, sumQty_cons, ih n f (Nat.lt_of_succ_lt_succ h)]
      show o.quantity + (sumQty rest - (getOrder rest n).quantity
          + (f (getOrder rest n)).quantity)
        = o.quantity + sumQty rest - (getOrder (o :: rest) (n + 1)).quantity
          + (f (getOrder (o :: rest) (n + 1))).quantity
      have hg : getOrder (o :: rest) (n + 1) = getOrder rest n := rfl
      rw [hg]
      ring

/-- Effect of one side of the write phase on the slot it fills: the
quantity drops by the matched quantity and the liveness flag is cleared
exactly when the new quantity is zero. -/
theorem applyFillSide_get {l : List Order} {i : Nat} (hi : i < l.length) (m : Int) :
    (getOrder (applyFillSide l i m) i).quantity = (getOrder l i).quantity - m ∧
    (getOrder (applyFillSide l i m) i).active
      = (if (getOrder l i).quantity - m = 0 then false
         else (getOrder l i).active) := by
  unfold applyFillSide
  have h1 := getOrder_updateOrder_self l i
    (fun o => { o with quantity := o.quantity - m }) hi
  have hlen : i < (updateOrder l i
      (fun o => { o with quantity := o.quantity - m })).length := by
    rw [length_updateOrder]; exact hi
  by_cases hz : (getOrder l i).quantity - m = 0
  · rw [if_pos (by rw [h1]; exact hz)]
    have h2 := getOrder_updateOrder_self _ i (fun o => { o with active := false }) hlen
    rw [h2, h1]
    exact ⟨rfl, by rw [if_pos hz]⟩
  · rw [if_neg (by rw [h1]; exact hz)]
    rw [h1]
    exact ⟨rfl, by rw [if_neg hz]⟩

/-- One side of the write phase lowers the quantity sum of that side by
exactly the matched quantity. -/
theorem sumQty_applyFillSide {l : List Order} {i : Nat} (hi : i < l.length) (m : Int) :
    sumQty (applyFillSide l i m) = sumQty l - m := by
  unfold applyFillSide
  have hlen : i < (updateOrder l i
      (fun o => { o with quantity := o.quantity - m })).length := by
    rw [length_updateOrder]; exact hi
  have hs1 : sumQty (updateOrder l i (fun o => { o with quantity := o.quantity - m }))
      = sumQty l - m := by
    rw [sumQty_updateOrder l i _ hi]
    show sumQty l - (getOrder l i).quantity + ((getOrder l i).quantity - m) = sumQty l - m
    ring
  dsimp only
  split
  · rw [sumQty_updateOrder _ i _ hlen]
    rw [hs1]
    show sumQty l - m - _ + _ = sumQty l - m
    ring
  · exact hs1

/-- The empty book satisfies the invariant. -/
theorem conserved_initState : conserved initState := ⟨rfl, rfl⟩

/-- Insertion preserves the invariant: a stored order raises the ghost
total and the side sum by the same quantity, a dropped order changes
neither. -/
theorem conserved_addOrder (t : String) (q p : Int) {s : EngineState}
    (h : conserved s) : conserved (addOrder t q p s) := by
  obtain ⟨h1, h2⟩ := h
  unfold conserved addOrder
  split
  · dsimp only
    split
    · exact ⟨h1, h2⟩
    · refine ⟨?_, h2⟩
      show s.insertedBuy + q
        = sumQty (s.book.buyOrders ++ [mkOrder true q p]) + sumFills s.fills
      rw [sumQty_append]
      show s.insertedBuy + q
        = sumQty s.book.buyOrders + q + sumFills s.fills
      linarith
  · split
    · dsimp only
      split
      · exact ⟨h1, h2⟩
      · refine ⟨h1, ?_⟩
        show s.insertedSell + q
          = sumQty (s.book.sellOrders ++ [mkOrder false q p]) + sumFills s.fills
        rw [sumQty_append]
        show s.insertedSell + q
          = sumQty s.book.sellOrders + q + sumFills s.fills
        linarith
    · exact ⟨h1, h2⟩

/-- Matching preserves the invariant: each side loses exactly the matched
quantity that the fill log gains. -/
theorem conserved_matchOrder {s : EngineState} (h : conserved s) :
    conserved (matchOrder s) := by
  rcases hd : matchDecide s.book with _ | loc
  · rw [matchOrder_of_none hd]; exact h
  · obtain ⟨hbb, hbs, hc, hm⟩ := matchDecide_some_inv hd
    obtain ⟨hbj, -⟩ := bestBuyScan_some hbb
    obtain ⟨hsj, -⟩ := bestSellScan_some hbs
    rw [matchOrder_of_some hd]
    obtain ⟨h1, h2⟩ := h
    constructor
    · show s.insertedBuy
        = sumQty (matchCommit s.book loc).1.buyOrders
          + sumFills (s.fills ++ [(matchCommit s.book loc).2])
      rw [sumFills_append]
      rw [show (matchCommit s.book loc).1.buyOrders
          = applyFillSide s.book.buyOrders loc.bestBuyIndex loc.matchedQuantity from rfl]
      rw [sumQty_applyFillSide hbj]
      rw [show (matchCommit s.book loc).2.quantity = loc.matchedQuantity from rfl]
      linarith
    · show s.insertedSell
        = sumQty (matchCommit s.book loc).1.sellOrders
          + sumFills (s.fills ++ [(matchCommit s.book loc).2])
      rw [sumFills_append]
      rw [show (matchCommit s.book loc).1.sellOrders
          = applyFillSide s.book.sellOrders loc.bestSellIndex loc.matchedQuantity from rfl]
      rw [sumQty_applyFillSide hsj]
      rw [show (matchCommit s.book loc).2.quantity = loc.matchedQuantity from rfl]
      linarith

/-- Every single operation preserves the invariant. -/
theorem conserved_step {s : EngineState} (h : conserved s) (op : Op) :
    conserved (step s op) := by
  cases op with
  | add t q p => exact conserved_addOrder t q p h
  | doMatch => exact conserved_matchOrder h

/-- The invariant is preserved by every operation sequence. -/
theorem conserved_foldl : ∀ (ops : List Op) (s : EngineState), conserved s →
    conserved (List.foldl step s ops) := by
  intro ops
  induction ops with
  | nil => intro s h; exact h
  | cons op rest ih => intro s h; exact ih (step s op) (conserved_step h op)

/-- A buy insertion always increments the buy counter: the `fetch_add`
happens before the capacity check and is never undone. -/
theorem addOrder_buy_count (q p : Int) (s : EngineState) :
    (addOrder "Buy" q p s).book.buyCount = s.book.buyCount + 1 := by
  unfold addOrder
  rw [if_pos rfl]
  dsimp only
  split <;> rfl

/-- After `n` buy insertions into the empty book, the buy counter is `n`,
with no bound. -/
theorem run_replicate_buy_count : ∀ n : Nat,
    (run (List.replicate n (Op.add "Buy" 1 1))).book.buyCount = n := by
  intro n
  induction n with
  | zero => rfl
  | succ n ih =>
    rw [List.replicate_succ']
    unfold run at ih ⊢
    rw [List.foldl_append]
    show (addOrder "Buy" 1 1
      (List.foldl step initState (List.replicate n (Op.add "Buy" 1 1)))).book.buyCount = n + 1
    rw [addOrder_buy_count, ih]

/-- Claim C1, amended.  For every sequence of inserts and matches on one
instrument the conservation law holds per side: the quantity successfully
inserted on a side equals the remaining quantity resting on that side
plus the total matched quantity reported.  Summed over both sides, the
inserted total equals the remaining total plus TWICE the reported matched
total, because every fill consumes its quantity once from each side while
being reported once. -/
theorem conservation_per_side (ops : List Op) :
    (run ops).insertedBuy = sumQty (run ops).book.buyOrders + sumFills (run ops).fills ∧
    (run ops).insertedSell = sumQty (run ops).book.sellOrders + sumFills (run ops).fills ∧
    (run ops).insertedBuy + (run ops).insertedSell
      = sumQty (run ops).book.buyOrders + sumQty (run ops).book.sellOrders
        + 2 * sumFills (run ops).fills := by
  have h : conserved (run ops) := conserved_foldl ops initState conserved_initState
  exact ⟨h.1, h.2, by have h1 := h.1; have h2 := h.2; linarith⟩

/-- Claim C1, counterexample to the two-sided statement.  Insert buy 100
at 50 and sell 100 at 50, then match: 200 was inserted in total, nothing
remains, and 100 is reported, so the inserted total differs from
remaining plus reported. -/
theorem conservation_totals_counterexample :
    (run conservationOps).insertedBuy + (run conservationOps).insertedSell = 200 ∧
    sumQty (run conservationOps).book.buyOrders
      + sumQty (run conservationOps).book.sellOrders = 0 ∧
    sumFills (run conservationOps).fills = 100 ∧
    ¬ ((run conservationOps).insertedBuy + (run conservationOps).insertedSell
        = sumQty (run conservationOps).book.buyOrders
          + sumQty (run conservationOps).book.sellOrders
          + sumFills (run conservationOps).fills) := by
  decide

/-- Claim C9, refutation by evaluation.  After `MAX_ORDERS_PER_SIDE + 1`
buy insertions the buy counter read by the `matchOrder` scan equals 1025
and exceeds the array capacity, so the scan bound in the code walks past
the end of the fixed array. -/
theorem buyCount_exceeds_capacity :
    (run (List.replicate (MAX_ORDERS_PER_SIDE + 1)
        (Op.add "Buy" 1 1))).book.buyCount = MAX_ORDERS_PER_SIDE + 1 ∧
    MAX_ORDERS_PER_SIDE
      < (run (List.replicate (MAX_ORDERS_PER_SIDE + 1)
          (Op.add "Buy" 1 1))).book.buyCount := by
  have h := run_replicate_buy_count (MAX_ORDERS_PER_SIDE + 1)
  exact ⟨h, by rw [h]; omega⟩

/-- Claim C2, behaviour of the code at capacity.  When a side counter has
reached `MAX_ORDERS_PER_SIDE`, inserting on that side still increments
the counter (so book state IS altered), stores no order, and returns the
plain state: the signature carries no error value, so no
`CapacityExceeded` can reach the caller and the order is silently
dropped. -/
theorem addOrder_full_side_drops_and_bumps_count :
    (∀ (s : EngineState) (q p : Int), MAX_ORDERS_PER_SIDE ≤ s.book.buyCount →
      addOrder "Buy" q p s
        = { s with book := { s.book with buyCount := s.book.buyCount + 1 } }) ∧
    (∀ (s : EngineState) (q p : Int), MAX_ORDERS_PER_SIDE ≤ s.book.sellCount →
      addOrder "Sell" q p s
        = { s with book := { s.book with sellCount := s.book.sellCount + 1 } }) := by
  constructor
  · intro s q p h
    unfold addOrder
    rw [if_pos rfl]
    dsimp only
    rw [if_pos h]
  · intro s q p h
    unfold addOrder
    rw [if_neg (by decide), if_pos rfl]
    dsimp only
    rw [if_pos h]

/-- Claim C2, witness at a concrete full book: the 1025th buy insertion
leaves the stored orders untouched but changes the counter from 1024 to
1025. -/
theorem addOrder_full_side_witness :
    (addOrder "Buy" 5 10 fullBuyState).book.buyCount = MAX_ORDERS_PER_SIDE + 1 ∧
    (addOrder "Buy" 5 10 fullBuyState).book.buyOrders = fullBuyState.book.buyOrders ∧
    (addOrder "Buy" 5 10 fullBuyState).book.buyCount ≠ fullBuyState.book.buyCount := by
  have h := addOrder_full_side_drops_and_bumps_count.1 fullBuyState 5 10 (by decide)
  rw [h]
  exact ⟨rfl, rfl, by decide⟩

/-- Claim C3, refutation by evaluation.  The distinct tickers Aa and BB
hash to the same book index 64, so the router aliases two different
instruments to one `OrderBook`. -/
theorem hashTicker_collision_Aa_BB :
    hashTicker "Aa" = 64 ∧ hashTicker "BB" = 64 ∧ "Aa" ≠ "BB" := by
  refine ⟨by decide, by decide, by decide⟩

/-- Claim C8, refutation by evaluation.  A zero-quantity buy and a
negative-price sell are both accepted: no error is possible in the
signature, both orders are appended as active resting orders, both
counters advance, and the state differs from the initial state, so no
rejection before mutation takes place. -/
theorem addOrder_no_validation :
    invalidOrdersState.book.buyOrders = [mkOrder true 0 10] ∧
    invalidOrdersState.book.sellOrders = [mkOrder false 5 (-3)] ∧
    invalidOrdersState.book.buyCount = 1 ∧
    invalidOrdersState.book.sellCount = 1 ∧
    (getOrder invalidOrdersState.book.buyOrders 0).active = true ∧
    (getOrder invalidOrdersState.book.buyOrders 0).quantity ≤ 0 ∧
    (getOrder invalidOrdersState.book.sellOrders 0).active = true ∧
    (getOrder invalidOrdersState.book.sellOrders 0).price ≤ 0 ∧
    invalidOrdersState ≠ initState := by
  decide

/-- Claim C4.  Whenever the read phase selects a crossing pair, the
reported fill carries exactly the minimum of the two remaining
quantities, both selected orders are decremented by that amount, any
order reaching zero remaining quantity is flipped to not-live, and an
order not reaching zero keeps its previous liveness flag. -/
theorem matchOrder_fill_min_decrement (s : EngineState) (loc : MatchLocal)
    (h : matchDecide s.book = some loc) :
    (matchOrder s).fills
      = s.fills ++ [⟨loc.matchedQuantity, loc.bestBuyPrice, loc.bestSellPrice⟩] ∧
    loc.matchedQuantity
      = min (getOrder s.book.buyOrders loc.bestBuyIndex).quantity
          (getOrder s.book.sellOrders loc.bestSellIndex).quantity ∧
    (getOrder (matchOrder s).book.buyOrders loc.bestBuyIndex).quantity
      = (getOrder s.book.buyOrders loc.bestBuyIndex).quantity - loc.matchedQuantity ∧
    (getOrder (matchOrder s).book.sellOrders loc.bestSellIndex).quantity
      = (getOrder s.book.sellOrders loc.bestSellIndex).quantity - loc.matchedQuantity ∧
    (getOrder (matchOrder s).book.buyOrders loc.bestBuyIndex).active
      = (if (getOrder s.book.buyOrders loc.bestBuyIndex).quantity - loc.matchedQuantity = 0
         then false else (getOrder s.book.buyOrders loc.bestBuyIndex).active) ∧
    (getOrder (matchOrder s).book.sellOrders loc.bestSellIndex).active
      = (if (getOrder s.book.sellOrders loc.bestSellIndex).quantity - loc.matchedQuantity = 0
         then false else (getOrder s.book.sellOrders loc.bestSellIndex).active) := by
  obtain ⟨hbb, hbs, hc, hm⟩ := matchDecide_some_inv h
  obtain ⟨hbj, -⟩ := bestBuyScan_some hbb
  obtain ⟨hsj, -⟩ := bestSellScan_some hbs
  rw [matchOrder_of_some h]
  have hbget := applyFillSide_get hbj loc.matchedQuantity
  have hsget := applyFillSide_get hsj loc.matchedQuantity
  exact ⟨rfl, hm, hbget.1, hsget.1, hbget.2, hsget.2⟩

/-- Claim C4, witness on the partly filled scenario: buy 300 at 60
against sell 100 at 55 yields one fill of 100 at prices 60 and 55, the
buy order stays live with 200 remaining, the sell order reaches zero and
goes not-live. -/
theorem matchOrder_partial_fill_scenario :
    (matchOrder partialFillPre).fills = [⟨100, 60, 55⟩] ∧
    (getOrder (matchOrder partialFillPre).book.buyOrders 0).quantity = 200 ∧
    (getOrder (matchOrder partialFillPre).book.buyOrders 0).active = true ∧
    (getOrder (matchOrder partialFillPre).book.sellOrders 0).quantity = 0 ∧
    (getOrder (matchOrder partialFillPre).book.sellOrders 0).active = false := by
  have h := matchOrder_fill_min_decrement partialFillPre ⟨0, 0, 60, 55, 100⟩ (by decide)
  obtain ⟨hf, -, hbq, hsq, hba, hsa⟩ := h
  refine ⟨?_, ?_, ?_, ?_, ?_⟩
  · rw [hf]; decide
  · rw [hbq]; decide
  · rw [hba]; decide
  · rw [hsq]; decide
  · rw [hsa]; decide

/-- Claim C5, amended.  The best-buy selection returns the live buy order
with the highest limit price among live buys of positive price, and the
best-sell selection the live sell order with the lowest limit price among
live sells priced below the sentinel 1000000; in either case every
earlier-inserted live order prices strictly worse, so among equal best
prices the lowest insertion index (the earliest inserted order, slots
being append-only) wins.  When the scan returns no order, every live buy
prices at or below 0, respectively every live sell at or above 1000000:
such orders are never selected even though they are live. -/
theorem bestScan_price_time_priority :
    (∀ (l : List Order) (j : Nat) (p : Int), bestBuyScan l = (some j, p) →
      ∃ hj : j < l.length,
        liveOrder (l.get ⟨j, hj⟩) ∧ (l.get ⟨j, hj⟩).price = p ∧ 0 < p ∧
        (∀ (k : Nat) (hk : k < l.length), liveOrder (l.get ⟨k, hk⟩) →
          (l.get ⟨k, hk⟩).price ≤ p) ∧
        (∀ (k : Nat) (hk : k < l.length), k < j → liveOrder (l.get ⟨k, hk⟩) →
          (l.get ⟨k, hk⟩).price < p)) ∧
    (∀ l : List Order, (bestBuyScan l).1 = none →
      ∀ (k : Nat) (hk : k < l.length), liveOrder (l.get ⟨k, hk⟩) →
        (l.get ⟨k, hk⟩).price ≤ 0) ∧
    (∀ (l : List Order) (j : Nat) (p : Int), bestSellScan l = (some j, p) →
      ∃ hj : j < l.length,
        liveOrder (l.get ⟨j, hj⟩) ∧ (l.get ⟨j, hj⟩).price = p ∧ p < 1000000 ∧
        (∀ (k : Nat) (hk : k < l.length), liveOrder (l.get ⟨k, hk⟩) →
          p ≤ (l.get ⟨k, hk⟩).price) ∧
        (∀ (k : Nat) (hk : k < l.length), k < j → liveOrder (l.get ⟨k, hk⟩) →
          p < (l.get ⟨k, hk⟩).price)) ∧
    (∀ l : List Order, (bestSellScan l).1 = none →
      ∀ (k : Nat) (hk : k < l.length), liveOrder (l.get ⟨k, hk⟩) →
        1000000 ≤ (l.get ⟨k, hk⟩).price) :=
  ⟨fun _ _ _ h => bestBuyScan_some h, fun _ h => bestBuyScan_none h,
   fun _ _ _ h => bestSellScan_some h, fun _ h => bestSellScan_none h⟩

/-- Claim C5, counterexample to the unrestricted statement: a book whose
only sell order is live with the valid positive price 1000000 makes the
best-sell selection return no order at all, instead of that lowest-priced
live sell. -/
theorem bestSellScan_sentinel_counterexample :
    (bestSellScan sentinelSellState.book.sellOrders).1 = none ∧
    sentinelSellState.book.sellOrders.length = 1 ∧
    (getOrder sentinelSellState.book.sellOrders 0).active = true ∧
    0 < (getOrder sentinelSellState.book.sellOrders 0).quantity ∧
    0 < (getOrder sentinelSellState.book.sellOrders 0).price := by
  decide

/-- Claim C5, witness on a price tie: of the three live buys quoting 50,
50 and 40 in insertion order, the selection picks index 0, the earliest
inserted of the two tied at the maximum. -/
theorem bestScan_price_time_priority_witness :
    bestBuyScan tieList = (some 0, 50) ∧
    liveOrder (tieList.get ⟨0, by decide⟩) ∧
    (tieList.get ⟨0, by decide⟩).price = 50 := by
  obtain ⟨hj, hlive, hp, -, -, -⟩ :=
    bestScan_price_time_priority.1 tieList 0 50 (by decide)
  exact ⟨by decide, hlive, hp⟩

/-- Claim C6.  No fill happens when the read phase declines, when the
best buy prices strictly below the best sell, or when either side has no
live order at all; and when a fill does happen, exactly one is appended
and its buy price is at least its sell price. -/
theorem matchOrder_price_priority :
    (∀ s : EngineState, matchDecide s.book = none → matchOrder s = s) ∧
    (∀ (s : EngineState) (bi si : Nat) (bbp bsp : Int),
      bestBuyScan s.book.buyOrders = (some bi, bbp) →
      bestSellScan s.book.sellOrders = (some si, bsp) →
      bbp < bsp → matchOrder s = s) ∧
    (∀ s : EngineState,
      (∀ (k : Nat) (hk : k < s.book.buyOrders.length),
        ¬ liveOrder (s.book.buyOrders.get ⟨k, hk⟩)) → matchOrder s = s) ∧
    (∀ s : EngineState,
      (∀ (k : Nat) (hk : k < s.book.sellOrders.length),
        ¬ liveOrder (s.book.sellOrders.get ⟨k, hk⟩)) → matchOrder s = s) ∧
    (∀ s : EngineState, (matchOrder s).fills = s.fills ∨
      ∃ f : Fill, (matchOrder s).fills = s.fills ++ [f] ∧ f.sellPrice ≤ f.buyPrice) := by
  refine ⟨?_, ?_, ?_, ?_, ?_⟩
  · intro s h
    exact matchOrder_of_none h
  · intro s bi si bbp bsp hb hs hlt
    exact matchOrder_of_none (matchDecide_none_of_spread hb hs hlt)
  · intro s hnone
    refine matchOrder_of_none (matchDecide_none_of_buy ?_)
    rcases hr : (bestBuyScan s.book.buyOrders).1 with _ | j
    · rfl
    · have hpair : bestBuyScan s.book.buyOrders
          = (some j, (bestBuyScan s.book.buyOrders).2) := by
        rw [← hr]
      obtain ⟨hj, hlive, -⟩ := bestBuyScan_some hpair
      exact absurd hlive (hnone j hj)
  · intro s hnone
    refine matchOrder_of_none (matchDecide_none_of_sell ?_)
    rcases hr : (bestSellScan s.book.sellOrders).1 with _ | j
    · rfl
    · have hpair : bestSellScan s.book.sellOrders
          = (some j, (bestSellScan s.book.sellOrders).2) := by
        rw [← hr]
      obtain ⟨hj, hlive, -⟩ := bestSellScan_some hpair
      exact absurd hlive (hnone j hj)
  · intro s
    rcases hd : matchDecide s.book with _ | loc
    · left
      rw [matchOrder_of_none hd]
    · right
      obtain ⟨-, -, hc, -⟩ := matchDecide_some_inv hd
      exact ⟨⟨loc.matchedQuantity, loc.bestBuyPrice, loc.bestSellPrice⟩,
        by rw [matchOrder_of_some hd]; rfl, hc⟩

/-- Claim C6, witness: with best buy 40 strictly below best sell 50,
`matchOrder` leaves the state untouched. -/
theorem matchOrder_price_priority_witness :
    matchOrder lowCrossState = lowCrossState :=
  matchOrder_price_priority.2.1 lowCrossState 0 0 40 50 (by decide) (by decide) (by decide)

/-- Claim C7, amended.  A single `matchOrder` invocation performs the
find-best-pair-and-fill step at most once: it either changes nothing or
appends exactly one fill, so draining every cross requires repeated
invocations by the caller. -/
theorem matchOrder_single_fill_per_call (s : EngineState) :
    (matchOrder s = s ∧ (matchOrder s).fills = s.fills) ∨
    ∃ f : Fill, (matchOrder s).fills = s.fills ++ [f] := by
  rcases hd : matchDecide s.book with _ | loc
  · left
    rw [matchOrder_of_none hd]
    exact ⟨rfl, rfl⟩
  · right
    exact ⟨(matchCommit s.book loc).2, by rw [matchOrder_of_some hd]⟩

/-- Claim C7, counterexample to the drain-all statement: with two
crossing pairs resting, one invocation reports one fill and returns while
a live buy at 50 still crosses a live sell at 40. -/
theorem matchOrder_cross_remains_counterexample :
    (run drainOps).fills.length = 1 ∧
    crossExistsb (run drainOps).book = true := by
  decide

/-- Claim C10, refutation by a legal sequentially consistent interleaving
of the atomic operations of two concurrent `matchOrder` calls on the same
crossing pair (buy 100 at 50 against sell 100 at 50).  Both threads run
the read/decide phase on the untouched book and compute the same decision
record; then each commits.  The result is two reported fills of 100 —
summing to 200, double the available quantity — and both orders driven to
the negative remaining quantity -100. -/
theorem race_double_fill :
    matchDecide racePre.book = some raceLocal ∧
    raceT1.2.quantity = 100 ∧
    raceT2.2.quantity = 100 ∧
    raceT1.2.quantity + raceT2.2.quantity = 200 ∧
    (getOrder raceT2.1.buyOrders 0).quantity = -100 ∧
    (getOrder raceT2.1.sellOrders 0).quantity = -100 := by
  decide
